import Mathlib

/-!
Shallow embedding of the vin-iso3779-validator TypeScript library
(src/index.ts): ISO 3779 VIN validation (length, charset, check digit).

JS strings are modelled as lists of Unicode scalar values (`List Char`).
`String.prototype.toUpperCase` is modelled by the per-character ASCII
simple case mapping `Char.toUpper`, matching the library's documented
scoping of defined behavior to basic Latin letters, ASCII digits, and
ASCII separators.  A thrown JS exception is modelled as `Except.error`
carrying the message string.
-/

/-- JS strings as lists of characters. -/
abbrev Str := List Char

deriving instance DecidableEq for Except

/-- Embeds `export const VIN_LENGTH = 17`. -/
def VIN_LENGTH : Nat := 17

/-- The character class `[\s-]` of the normalizer, and the character set
removed by `String.prototype.trim`: JS WhiteSpace plus LineTerminator
code points, plus the hyphen for the regex alternative. -/
def jsWhitespace (c : Char) : Bool :=
  (9 ≤ c.toNat && c.toNat ≤ 13) || c.toNat == 32 || c.toNat == 160 ||
  c.toNat == 5760 || (8192 ≤ c.toNat && c.toNat ≤ 8202) || c.toNat == 8232 ||
  c.toNat == 8233 || c.toNat == 8239 || c.toNat == 8287 || c.toNat == 12288 ||
  c.toNat == 65279

/-- One character of the class `[A-HJ-NPR-Z0-9]` in `VIN_REGEX`. -/
def permittedChar (c : Char) : Bool :=
  (decide ('A' ≤ c) && decide (c ≤ 'H')) ||
  (decide ('J' ≤ c) && decide (c ≤ 'N')) ||
  c == 'P' ||
  (decide ('R' ≤ c) && decide (c ≤ 'Z')) ||
  (decide ('0' ≤ c) && decide (c ≤ '9'))

/-- Embeds `VIN_REGEX.test`, where `VIN_REGEX = /^[A-HJ-NPR-Z0-9]{17}$/`. -/
def VIN_REGEX (v : Str) : Bool :=
  v.length == VIN_LENGTH && v.all permittedChar

/-- Embeds `const WEIGHTS = [8, 7, 6, 5, 4, 3, 2, 10, 0, 9, 8, 7, 6, 5, 4, 3, 2]`. -/
def WEIGHTS : List Nat := [8, 7, 6, 5, 4, 3, 2, 10, 0, 9, 8, 7, 6, 5, 4, 3, 2]

/-- The entries of the object literal `MAP`, in source order. -/
def MAP_entries : List (Char × Nat) :=
  [(Char.ofNat 48, 0), (Char.ofNat 49, 1), (Char.ofNat 50, 2), (Char.ofNat 51, 3),
   (Char.ofNat 52, 4), (Char.ofNat 53, 5), (Char.ofNat 54, 6), (Char.ofNat 55, 7),
   (Char.ofNat 56, 8), (Char.ofNat 57, 9),
   (Char.ofNat 65, 1), (Char.ofNat 66, 2), (Char.ofNat 67, 3), (Char.ofNat 68, 4),
   (Char.ofNat 69, 5), (Char.ofNat 70, 6), (Char.ofNat 71, 7), (Char.ofNat 72, 8),
   (Char.ofNat 74, 1), (Char.ofNat 75, 2), (Char.ofNat 76, 3), (Char.ofNat 77, 4),
   (Char.ofNat 78, 5), (Char.ofNat 80, 7), (Char.ofNat 82, 9),
   (Char.ofNat 83, 2), (Char.ofNat 84, 3), (Char.ofNat 85, 4), (Char.ofNat 86, 5),
   (Char.ofNat 87, 6), (Char.ofNat 88, 7), (Char.ofNat 89, 8), (Char.ofNat 90, 9)]

/-- Embeds the keyed lookup `MAP[ch]` on the object literal
`const MAP: Record<string, number>`; absent keys give `undefined`,
modelled as `none`. -/
def MAP (c : Char) : Option Nat :=
  (MAP_entries.find? (fun p => p.1 == c)).map (fun p => p.2)

/-- Embeds the union type `VinErrorCode`. -/
inductive VinErrorCode where
  | INVALID_LENGTH
  | INVALID_CHARACTERS
  | INVALID_CHECK_DIGIT
deriving DecidableEq, Repr

/-- Embeds the interface `ValidationResult`. -/
structure ValidationResult where
  isValid : Bool
  vin : Str
  errors : List VinErrorCode
  checkDigit : Str
  expectedCheckDigit : Str
deriving DecidableEq, Repr

/-- Embeds `String.prototype.trim` (applied in `normalizeVIN`): removes
leading and trailing JS white-space. -/
def trimJs (l : Str) : Str :=
  ((l.dropWhile jsWhitespace).reverse.dropWhile jsWhitespace).reverse

/-- Embeds `normalizeVIN`:
`input.replace(/[\s-]+/g, "").trim().toUpperCase()`.  Replacing every
maximal `[\s-]+` run by the empty string deletes exactly the characters
of the class, i.e. is a filter. -/
def normalizeVIN (input : Str) : Str :=
  (trimJs (input.filter (fun c => !(jsWhitespace c || c == '-')))).map Char.toUpper

/-- The apostrophe character, U+0027. -/
def quoteChar : Char := Char.ofNat 39

/-- The message of the exception thrown by `computeCheckDigit`:
`Invalid character PRIME_ch_PRIME at position ...` with the shown text of the
offending character and its 1-based position interpolated. -/
def invalidCharMsg (shown : Str) (pos : Nat) : Str :=
  ("Invalid character ".data) ++ [quoteChar] ++ shown ++ [quoteChar] ++
  (" at position ".data) ++ (Nat.repr pos).data

/-- The loop of `computeCheckDigit` from index `i`, one weight per
remaining iteration: reads `v[i]`, looks it up in `MAP`, throws on
`undefined` (out-of-range access renders as the text `undefined` in the
message), and accumulates `val * WEIGHTS[i]` into the sum. -/
def sumVIN (v : Str) : List Nat → Nat → Except Str Nat
  | [], _ => Except.ok 0
  | w :: ws, i =>
    match v[i]? with
    | none => Except.error (invalidCharMsg ("undefined".data) (i + 1))
    | some ch =>
      match MAP ch with
      | none => Except.error (invalidCharMsg [ch] (i + 1))
      | some val => Except.map (fun rest => val * w + rest) (sumVIN v ws (i + 1))

/-- Embeds `computeCheckDigit`: uppercases, runs the weighted sum over
the 17 positions, takes the sum mod 11, and yields the character `X`
for remainder 10 and the decimal digit character otherwise (the source
returns the one-character string `String(remainder)`). -/
def computeCheckDigit (vin : Str) : Except Str Char :=
  match sumVIN (vin.map Char.toUpper) WEIGHTS 0 with
  | Except.error e => Except.error e
  | Except.ok sum =>
    Except.ok (if sum % 11 == 10 then 'X' else Char.ofNat (48 + sum % 11))

/-- The sentinel `"N/A"` used for a not-computed expected check digit. -/
def naStr : Str := "N/A".data

/-- Embeds `validateVIN`: normalize, record `INVALID_LENGTH` and
`INVALID_CHARACTERS`, then inside the `try` block attempt the check
digit only at length 17; a thrown calculator error is caught and leaves
`expected` at the sentinel. -/
def validateVIN (input : Str) : ValidationResult :=
  let vin := normalizeVIN input
  let errs0 : List VinErrorCode :=
    if vin.length ≠ VIN_LENGTH then [VinErrorCode.INVALID_LENGTH] else []
  let errs1 : List VinErrorCode :=
    errs0 ++ (if !(VIN_REGEX vin) then [VinErrorCode.INVALID_CHARACTERS] else [])
  let step : Str × List VinErrorCode :=
    if vin.length = VIN_LENGTH then
      match computeCheckDigit vin with
      | Except.error _ => (naStr, errs1)
      | Except.ok d =>
        if VIN_REGEX vin && !(vin[8]? == some d) then
          ([d], errs1 ++ [VinErrorCode.INVALID_CHECK_DIGIT])
        else ([d], errs1)
    else (naStr, errs1)
  { isValid := step.2.length == 0,
    vin := vin,
    errors := step.2,
    checkDigit := match vin[8]? with | some c => [c] | none => [],
    expectedCheckDigit := step.1 }

/-- Embeds `isValidVIN` (the branding is type-level only). -/
def isValidVIN (vin : Str) : Bool :=
  (validateVIN vin).isValid

/-- The rendering of an error code by `errors.join(", ")`. -/
def errorCodeStr : VinErrorCode → Str
  | VinErrorCode.INVALID_LENGTH => "INVALID_LENGTH".data
  | VinErrorCode.INVALID_CHARACTERS => "INVALID_CHARACTERS".data
  | VinErrorCode.INVALID_CHECK_DIGIT => "INVALID_CHECK_DIGIT".data

/-- Embeds `assertVIN`: throwing is modelled as `Except.error` with the
thrown message. -/
def assertVIN (input : Str) : Except Str Str :=
  let res := validateVIN input
  if res.isValid then Except.ok res.vin
  else
    Except.error (("Invalid VIN: ".data) ++
      (List.intercalate (", ".data) (res.errors.map errorCodeStr)) ++
      (" (expected check digit: ".data) ++ res.expectedCheckDigit ++ (")".data))

/-- Specification-side transliteration value of a character (0 for
characters outside the table), used to state the weighted-sum formula. -/
def translitValue (c : Char) : Nat := (MAP c).getD 0

/-- Specification-side weighted sum over the transliteration values and
the position weights. -/
def weightedSum (v : Str) : Nat :=
  (List.zipWith (fun c w => translitValue c * w) v WEIGHTS).sum

/-- Specification-side rendering of a remainder as a check-digit
character. -/
def checkDigitChar (r : Nat) : Char :=
  if r == 10 then 'X' else Char.ofNat (48 + r)

/-- Specification-side abbreviation: the expected-check-digit field that
`validateVIN` produces for a normalized candidate. -/
def expectedOf (v : Str) : Str :=
  if VIN_REGEX v = true then [checkDigitChar (weightedSum v % 11)] else naStr

def errorsOf (v : Str) : List VinErrorCode :=
  (if v.length = 17 then [] else [VinErrorCode.INVALID_LENGTH]) ++
  (if VIN_REGEX v = true then [] else [VinErrorCode.INVALID_CHARACTERS]) ++
  (if VIN_REGEX v = true ∧ ¬ v[8]? = some (checkDigitChar (weightedSum v % 11))
   then [VinErrorCode.INVALID_CHECK_DIGIT] else [])

/-- Specification-side shown text of the character read at index `j`
(out-of-range reads render as the text `undefined`). -/
def shownAt (v : Str) (j : Nat) : Str :=
  match v[j]? with
  | none => "undefined".data
  | some c => [c]

example : computeCheckDigit ("1M8GDM9AXKP042788".data) = Except.ok 'X' := by decide
example : (validateVIN ("1HGCM82633A004352".data)).isValid = true := by decide

theorem charLe_iff {a b : Char} : a ≤ b ↔ a.toNat ≤ b.toNat := Iff.rfl

theorem toNat_ofNat_valid {n : Nat} (h : n < 55296) : (Char.ofNat n).toNat = n := by
  rw [Char.ofNat, dif_pos (Or.inl h)]
  rfl

theorem permittedChar_lt {c : Char} (h : permittedChar c = true) : c.toNat < 91 := by
  simp only [permittedChar, Bool.or_eq_true, Bool.and_eq_true, decide_eq_true_eq,
    beq_iff_eq] at h
  have eH : ('H').toNat = 72 := by decide
  have eN : ('N').toNat = 78 := by decide
  have eZ : ('Z').toNat = 90 := by decide
  have e9 : ('9').toNat = 57 := by decide
  rcases h with ((((⟨h1, h2⟩ | ⟨h1, h2⟩) | h1) | ⟨h1, h2⟩) | ⟨h1, h2⟩)
  · have := charLe_iff.mp h2
    omega
  · have := charLe_iff.mp h2
    omega
  · subst h1
    decide
  · have := charLe_iff.mp h2
    omega
  · have := charLe_iff.mp h2
    omega

theorem MAP_entries_lt : ∀ p ∈ MAP_entries, p.1.toNat < 91 ∧ p.2 ≤ 9 := by decide

theorem MAP_lt {c : Char} {v : Nat} (h : MAP c = some v) : c.toNat < 91 ∧ v ≤ 9 := by
  simp only [MAP, Option.map_eq_some'] at h
  obtain ⟨p, hp, hv⟩ := h
  have hmem := List.mem_of_find?_eq_some hp
  have hbeq := List.find?_some hp
  have hc : p.1 = c := by simpa using hbeq
  have := MAP_entries_lt p hmem
  subst hc
  subst hv
  exact this

theorem bounded_perm_MAP : ∀ n, n < 91 → ((MAP (Char.ofNat n)).isSome = permittedChar (Char.ofNat n)) := by decide

theorem MAP_isSome_eq (c : Char) : (MAP c).isSome = permittedChar c := by
  by_cases hb : c.toNat < 91
  · have := bounded_perm_MAP c.toNat hb
    rwa [Char.ofNat_toNat] at this
  · have h1 : (MAP c).isSome = false := by
      cases hm : MAP c with
      | none => rfl
      | some v => exact absurd (MAP_lt hm).1 hb
    have h2 : permittedChar c = false := by
      cases hp : permittedChar c with
      | false => rfl
      | true => exact absurd (permittedChar_lt hp) hb
    rw [h1, h2]

theorem toUpper_toNat (c : Char) :
    (Char.toUpper c).toNat = if 97 ≤ c.toNat ∧ c.toNat ≤ 122 then c.toNat - 32 else c.toNat := by
  rw [Char.toUpper]
  split
  · rename_i h
    exact toNat_ofNat_valid (by omega)
  · rfl

theorem toUpper_eq_self {c : Char} (h : ¬(97 ≤ c.toNat ∧ c.toNat ≤ 122)) :
    Char.toUpper c = c := by
  rw [Char.toUpper, if_neg h]

theorem toUpper_idem (c : Char) : Char.toUpper (Char.toUpper c) = Char.toUpper c := by
  by_cases h : 97 ≤ c.toNat ∧ c.toNat ≤ 122
  · apply toUpper_eq_self
    rw [toUpper_toNat, if_pos h]
    omega
  · rw [toUpper_eq_self h, toUpper_eq_self h]

theorem perm_toUpper {c : Char} (h : permittedChar c = true) : Char.toUpper c = c := by
  have := permittedChar_lt h
  apply toUpper_eq_self
  omega

theorem notSep_of_range {d : Char} (h65 : 65 ≤ d.toNat) (h90 : d.toNat ≤ 90) :
    (jsWhitespace d || d == '-') = false := by
  have h45 : ('-').toNat = 45 := by decide
  have h1 : jsWhitespace d = false := by
    simp only [jsWhitespace, Bool.or_eq_false_iff, Bool.and_eq_false_iff,
      decide_eq_false_iff_not, beq_eq_false_iff_ne, ne_eq]
    omega
  have h2 : (d == '-') = false := by
    simp only [beq_eq_false_iff_ne, ne_eq]
    intro hd
    rw [hd, h45] at h65
    omega
  rw [h1, h2]
  rfl

theorem sep_toUpper {c : Char} (h : (jsWhitespace c || c == '-') = false) :
    (jsWhitespace (Char.toUpper c) || Char.toUpper c == '-') = false := by
  by_cases hr : 97 ≤ c.toNat ∧ c.toNat ≤ 122
  · have ht : (Char.toUpper c).toNat = c.toNat - 32 := by
      rw [toUpper_toNat, if_pos hr]
    apply notSep_of_range
    · rw [ht]
      omega
    · rw [ht]
      omega
  · rwa [toUpper_eq_self hr]

theorem mem_trimJs {l : Str} {c : Char} (h : c ∈ trimJs l) : c ∈ l := by
  simp only [trimJs, List.mem_reverse] at h
  have h1 := (List.dropWhile_sublist jsWhitespace).subset h
  rw [List.mem_reverse] at h1
  exact (List.dropWhile_sublist jsWhitespace).subset h1

theorem dropWhile_eq_self_of_all {p : Char → Bool} {l : Str}
    (h : ∀ c ∈ l, p c = false) : l.dropWhile p = l := by
  cases l with
  | nil => rfl
  | cons a l =>
    rw [List.dropWhile_cons, h a (List.mem_cons_self a l)]
    simp

theorem trimJs_eq_self_of_all {l : Str} (h : ∀ c ∈ l, jsWhitespace c = false) :
    trimJs l = l := by
  rw [trimJs, dropWhile_eq_self_of_all h]
  rw [dropWhile_eq_self_of_all (fun c hc => h c (List.mem_reverse.mp hc))]
  exact List.reverse_reverse l

theorem normalizeVIN_no_sep {s : Str} :
    ∀ c ∈ normalizeVIN s, (jsWhitespace c || c == '-') = false := by
  intro c hc
  simp only [normalizeVIN, List.mem_map] at hc
  obtain ⟨c0, hc0, rfl⟩ := hc
  have h0 := mem_trimJs hc0
  have h1 := (List.mem_filter.mp h0).2
  rw [Bool.not_eq_true'] at h1
  exact sep_toUpper h1

theorem normalizeVIN_toUpper {s : Str} :
    ∀ c ∈ normalizeVIN s, Char.toUpper c = c := by
  intro c hc
  simp only [normalizeVIN, List.mem_map] at hc
  obtain ⟨c0, _, rfl⟩ := hc
  exact toUpper_idem c0

/-- Claim C9: normalization is idempotent, for every string s,
normalizeVIN (normalizeVIN s) equals normalizeVIN s. -/
theorem normalizeVIN_idem (s : Str) : normalizeVIN (normalizeVIN s) = normalizeVIN s := by
  have hsep := normalizeVIN_no_sep (s := s)
  have hfil : (normalizeVIN s).filter (fun c => !(jsWhitespace c || c == '-')) = normalizeVIN s := by
    apply List.filter_eq_self.mpr
    intro a ha
    rw [hsep a ha]
    rfl
  have hws : ∀ c ∈ normalizeVIN s, jsWhitespace c = false := by
    intro c hc
    have := hsep c hc
    rw [Bool.or_eq_false_iff] at this
    exact this.1
  conv_lhs => rw [normalizeVIN]
  rw [hfil, trimJs_eq_self_of_all hws]
  exact List.map_congr_left normalizeVIN_toUpper |>.trans (List.map_id _)

theorem sumVIN_eq_ok {v : Str} : ∀ (ws : List Nat) (i : Nat),
    (∀ j, j < ws.length → (Option.bind v[i + j]? MAP).isSome = true) →
    sumVIN v ws i =
      Except.ok ((List.zipWith (fun c w => translitValue c * w) (v.drop i) ws).sum) := by
  intro ws
  induction ws with
  | nil =>
    intro i _
    rw [sumVIN, List.zipWith_nil_right]
    rfl
  | cons w ws ih =>
    intro i h
    have h0 := h 0 (by simp)
    rw [Nat.add_zero] at h0
    cases hv : v[i]? with
    | none =>
      rw [hv] at h0
      simp at h0
    | some c =>
      rw [hv] at h0
      simp only [Option.some_bind] at h0
      cases hm : MAP c with
      | none =>
        rw [hm] at h0
        simp at h0
      | some val =>
        have hlt : i < v.length := (List.getElem?_eq_some_iff.mp hv).1
        have hix : v[i] = c := (List.getElem?_eq_some_iff.mp hv).2
        have hrec := ih (i + 1) (fun j hj => by
          have hlen : j + 1 < (w :: ws).length := by
            simp only [List.length_cons]
            omega
          have h2 := h (j + 1) hlen
          have he : i + (j + 1) = i + 1 + j := by omega
          rwa [he] at h2)
        rw [sumVIN]
        simp only [hv, hm, hrec, Except.map]
        rw [List.drop_eq_getElem_cons hlt, hix, List.zipWith_cons_cons, List.sum_cons]
        simp [translitValue, hm]

theorem sumVIN_ok_good {v : Str} : ∀ (ws : List Nat) (i : Nat) (s : Nat),
    sumVIN v ws i = Except.ok s →
    ∀ j, j < ws.length → (Option.bind v[i + j]? MAP).isSome = true := by
  intro ws
  induction ws with
  | nil =>
    intro i s _ j hj
    exact absurd hj (by simp)
  | cons w ws ih =>
    intro i s hs j hj
    rw [sumVIN] at hs
    cases hv : v[i]? with
    | none =>
      simp only [hv] at hs
      exact Except.noConfusion hs
    | some c =>
      simp only [hv] at hs
      cases hm : MAP c with
      | none =>
        simp only [hm] at hs
        exact Except.noConfusion hs
      | some val =>
        simp only [hm] at hs
        cases hrec : sumVIN v ws (i + 1) with
        | error e =>
          rw [hrec] at hs
          exact absurd hs (by simp [Except.map])
        | ok srec =>
          cases j with
          | zero =>
            rw [Nat.add_zero, hv]
            simp [hm]
          | succ j =>
            have hjl : j < ws.length := by
              simp only [List.length_cons] at hj
              omega
            have h2 := ih (i + 1) srec hrec j hjl
            have he : i + 1 + j = i + (j + 1) := by omega
            rwa [he] at h2


theorem map_toUpper_of_all_perm {v : Str} (hall : v.all permittedChar = true) :
    v.map Char.toUpper = v := by
  refine (List.map_congr_left ?_).trans (List.map_id v)
  intro a ha
  exact perm_toUpper (List.all_eq_true.mp hall a ha)

theorem compute_eq_of_good {v : Str}
    (h : ∀ j, j < 17 → (Option.bind (v.map Char.toUpper)[j]? MAP).isSome = true) :
    computeCheckDigit v =
      Except.ok (checkDigitChar (weightedSum (v.map Char.toUpper) % 11)) := by
  have hs := sumVIN_eq_ok (v := v.map Char.toUpper) WEIGHTS 0 (fun j hj => by
    have he : 0 + j = j := by omega
    rw [he]
    exact h j hj)
  rw [computeCheckDigit, hs]
  simp only [List.drop_zero]
  rfl

theorem compute_ok_of_perm {v : Str} (hlen : v.length = 17) (hall : v.all permittedChar = true) :
    computeCheckDigit v = Except.ok (checkDigitChar (weightedSum v % 11)) := by
  have hmap := map_toUpper_of_all_perm hall
  have hgood : ∀ j, j < 17 → (Option.bind (v.map Char.toUpper)[j]? MAP).isSome = true := by
    intro j hj
    rw [hmap, List.getElem?_eq_getElem (by omega), Option.some_bind, MAP_isSome_eq]
    exact List.all_eq_true.mp hall _ (List.getElem_mem _)
  have := compute_eq_of_good hgood
  rwa [hmap] at this

theorem compute_err_iff (v : Str) :
    (∃ e, computeCheckDigit v = Except.error e) ↔
    (∃ j, j < 17 ∧ Option.bind (v.map Char.toUpper)[j]? MAP = none) := by
  constructor
  · rintro ⟨e, he⟩
    by_contra hno
    push_neg at hno
    have hgood : ∀ j, j < 17 → (Option.bind (v.map Char.toUpper)[j]? MAP).isSome = true := by
      intro j hj
      cases hb : Option.bind (v.map Char.toUpper)[j]? MAP with
      | none => exact absurd hb (hno j hj)
      | some u => rfl
    rw [compute_eq_of_good hgood] at he
    exact Except.noConfusion he
  · rintro ⟨j, hj, hbad⟩
    cases hs : sumVIN (v.map Char.toUpper) WEIGHTS 0 with
    | error e =>
      refine ⟨e, ?_⟩
      rw [computeCheckDigit, hs]
    | ok s =>
      have := sumVIN_ok_good WEIGHTS 0 s hs j hj
      rw [Nat.zero_add, hbad] at this
      exact absurd this (by simp)

theorem compute_error_of_bad {v : Str} (hup : v.map Char.toUpper = v)
    (hlen : v.length = 17) (hreg : VIN_REGEX v = false) :
    ∃ e, computeCheckDigit v = Except.error e := by
  apply (compute_err_iff v).mpr
  rw [hup]
  have hall : v.all permittedChar = false := by
    rw [VIN_REGEX] at hreg
    simpa [hlen, VIN_LENGTH] using hreg
  obtain ⟨c, hc, hpc⟩ := List.all_eq_false.mp hall
  obtain ⟨j, hjl, hj⟩ := List.getElem_of_mem hc
  refine ⟨j, by omega, ?_⟩
  rw [List.getElem?_eq_getElem hjl, Option.some_bind, hj]
  cases hm : MAP c with
  | none => rfl
  | some u =>
    have := MAP_isSome_eq c
    rw [hm] at this
    simp at this
    exact absurd this hpc

theorem normalizeVIN_map_toUpper (x : Str) :
    (normalizeVIN x).map Char.toUpper = normalizeVIN x :=
  (List.map_congr_left normalizeVIN_toUpper).trans (List.map_id _)

theorem validateVIN_eq (x : Str) :
    validateVIN x =
      { isValid := (errorsOf (normalizeVIN x)).length == 0,
        vin := normalizeVIN x,
        errors := errorsOf (normalizeVIN x),
        checkDigit := match (normalizeVIN x)[8]? with | some c => [c] | none => [],
        expectedCheckDigit := expectedOf (normalizeVIN x) } := by
  by_cases hlen : (normalizeVIN x).length = 17
  · by_cases hreg : VIN_REGEX (normalizeVIN x) = true
    · have hall : (normalizeVIN x).all permittedChar = true := by
        rw [VIN_REGEX] at hreg
        exact ((Bool.and_eq_true _ _).mp hreg).2
      have hc := compute_ok_of_perm hlen hall
      by_cases hcd : (normalizeVIN x)[8]? = some (checkDigitChar (weightedSum (normalizeVIN x) % 11))
      · rw [validateVIN]
        simp [hc, errorsOf, expectedOf, VIN_LENGTH, hlen, hreg, hcd]
      · have h8 : 8 < (normalizeVIN x).length := by omega
        have hcd2 : ¬ (normalizeVIN x)[8] = checkDigitChar (weightedSum (normalizeVIN x) % 11) := by
          rw [List.getElem?_eq_getElem h8] at hcd
          simpa using hcd
        rw [validateVIN]
        simp [hc, errorsOf, expectedOf, VIN_LENGTH, hlen, hreg, hcd, hcd2]
    · obtain ⟨e, he⟩ := compute_error_of_bad (normalizeVIN_map_toUpper x) hlen
        (by rwa [Bool.not_eq_true] at hreg)
      rw [validateVIN]
      simp [he, errorsOf, expectedOf, VIN_LENGTH, hlen, hreg]
  · have hreg : VIN_REGEX (normalizeVIN x) = false := by
      rw [VIN_REGEX]
      simp [VIN_LENGTH, hlen]
    rw [validateVIN]
    simp [errorsOf, expectedOf, VIN_LENGTH, hlen, hreg]

theorem mem_errorsOf_len (v : Str) :
    VinErrorCode.INVALID_LENGTH ∈ errorsOf v ↔ v.length ≠ 17 := by
  by_cases h1 : v.length = 17 <;>
    by_cases h2 : VIN_REGEX v = true <;>
      by_cases h3 : VIN_REGEX v = true ∧ ¬ v[8]? = some (checkDigitChar (weightedSum v % 11)) <;>
        simp [errorsOf, h1, h2, h3]

theorem mem_errorsOf_chars (v : Str) :
    VinErrorCode.INVALID_CHARACTERS ∈ errorsOf v ↔ VIN_REGEX v = false := by
  by_cases h1 : v.length = 17 <;>
    by_cases h2 : VIN_REGEX v = true <;>
      by_cases h3 : VIN_REGEX v = true ∧ ¬ v[8]? = some (checkDigitChar (weightedSum v % 11)) <;>
        simp [errorsOf, h1, h2, h3]

theorem mem_errorsOf_ckd (v : Str) :
    VinErrorCode.INVALID_CHECK_DIGIT ∈ errorsOf v ↔
      (VIN_REGEX v = true ∧ ¬ v[8]? = some (checkDigitChar (weightedSum v % 11))) := by
  by_cases h1 : v.length = 17 <;>
    by_cases h2 : VIN_REGEX v = true <;>
      by_cases h3 : VIN_REGEX v = true ∧ ¬ v[8]? = some (checkDigitChar (weightedSum v % 11)) <;>
        simp [errorsOf, h1, h2, h3]

theorem errorsOf_eq_nil_iff (v : Str) :
    errorsOf v = [] ↔
      (v.length = 17 ∧ VIN_REGEX v = true ∧
        v[8]? = some (checkDigitChar (weightedSum v % 11))) := by
  by_cases h1 : v.length = 17 <;>
    by_cases h2 : VIN_REGEX v = true <;>
      by_cases h3 : v[8]? = some (checkDigitChar (weightedSum v % 11)) <;>
        simp [errorsOf, h1, h2, h3]

theorem VIN_REGEX_iff (v : Str) :
    VIN_REGEX v = true ↔ (v.length = 17 ∧ ∀ c ∈ v, permittedChar c = true) := by
  rw [VIN_REGEX]
  simp [VIN_LENGTH]

/-- Claim C1: for every string x, validateVIN x is valid exactly when the
normalized candidate has length 17, every character is in the permitted
33-character alphabet, and the 9th character (index 8) equals the value
computeCheckDigit returns on the normalized candidate; equivalently, the
result is valid exactly when its error list is empty. -/
theorem validateVIN_isValid_iff (x : Str) :
    ((validateVIN x).isValid = true ↔
      ((normalizeVIN x).length = 17 ∧ (∀ c ∈ normalizeVIN x, permittedChar c = true) ∧
        ∃ d, computeCheckDigit (normalizeVIN x) = Except.ok d ∧ (normalizeVIN x)[8]? = some d)) ∧
    ((validateVIN x).isValid = true ↔ (validateVIN x).errors = []) := by
  have hval : (validateVIN x).isValid = ((errorsOf (normalizeVIN x)).length == 0) := by
    rw [validateVIN_eq]
  have herr : (validateVIN x).errors = errorsOf (normalizeVIN x) := by
    rw [validateVIN_eq]
  constructor
  · rw [hval, beq_iff_eq, List.length_eq_zero]
    constructor
    · intro h
      obtain ⟨hl, hr, hcd⟩ := (errorsOf_eq_nil_iff _).mp h
      obtain ⟨hl2, hall⟩ := (VIN_REGEX_iff _).mp hr
      exact ⟨hl, hall, checkDigitChar (weightedSum (normalizeVIN x) % 11),
        compute_ok_of_perm hl (List.all_eq_true.mpr hall), hcd⟩
    · rintro ⟨hl, hall, d, hok, h8⟩
      apply (errorsOf_eq_nil_iff _).mpr
      have hr := (VIN_REGEX_iff _).mpr ⟨hl, hall⟩
      have hcc := compute_ok_of_perm hl (List.all_eq_true.mpr hall)
      have hd : d = checkDigitChar (weightedSum (normalizeVIN x) % 11) := by
        have := hok.symm.trans hcc
        exact Except.ok.inj this
      rw [hd] at h8
      exact ⟨hl, hr, h8⟩
  · rw [hval, herr, beq_iff_eq, List.length_eq_zero]

theorem checkDigitChar_mem : ∀ r, r < 11 →
    checkDigitChar r ∈ ['0', '1', '2', '3', '4', '5', '6', '7', '8', '9', 'X'] := by decide

/-- Claim C2: computeCheckDigit multiplies the transliteration value of
each of the 17 positions by the fixed position weights (17 integers, with
weight 0 at position 9), sums them, takes the sum mod 11, and renders
remainder 10 as the character X and any other remainder as its decimal
digit character; on every 17-character string drawn from the permitted
alphabet it succeeds and returns one character out of 0-9 and X. -/
theorem computeCheckDigit_spec (v : Str) (hlen : v.length = 17)
    (hperm : ∀ c ∈ v, permittedChar c = true) :
    computeCheckDigit v = Except.ok (checkDigitChar (weightedSum v % 11)) ∧
    WEIGHTS.length = 17 ∧ WEIGHTS[8]? = some 0 ∧
    (∀ r : Nat, (r = 10 → checkDigitChar r = 'X') ∧
      (r < 10 → checkDigitChar r = Char.ofNat (48 + r))) ∧
    checkDigitChar (weightedSum v % 11) ∈
      ['0', '1', '2', '3', '4', '5', '6', '7', '8', '9', 'X'] := by
  refine ⟨compute_ok_of_perm hlen (List.all_eq_true.mpr hperm), rfl, rfl, ?_, ?_⟩
  · intro r
    constructor
    · intro h
      rw [h]
      rfl
    · intro h
      rw [checkDigitChar, if_neg]
      simp
      omega
  · exact checkDigitChar_mem _ (Nat.mod_lt _ (by omega))

theorem computeCheckDigit_spec_witness :
    ("1HGCM82633A004352".data).length = 17 ∧
    (∀ c ∈ ("1HGCM82633A004352".data), permittedChar c = true) ∧
    computeCheckDigit ("1HGCM82633A004352".data) =
      Except.ok (checkDigitChar (weightedSum ("1HGCM82633A004352".data) % 11)) :=
  ⟨by decide, by decide,
    (computeCheckDigit_spec ("1HGCM82633A004352".data) (by decide) (by decide)).1⟩

/-- Counterexample to claim C3: the claim asserts the letter assignment
A,J,S to 1, but the table maps S to 2, not to 1. -/
theorem MAP_S_counterexample : MAP 'S' = some 2 ∧ ¬ MAP 'S' = some 1 := by
  constructor
  · decide
  · decide

/-- Claim C3 as amended: the transliteration table is total on exactly
the 33 permitted characters with values in the range 0 to 9, each digit
maps to its own numeric value, the letters follow the fixed ISO 3779
table A1 B2 C3 D4 E5 F6 G7 H8 J1 K2 L3 M4 N5 P7 R9 S2 T3 U4 V5 W6 X7 Y8
Z9, and I, O, Q and every non-permitted character are absent. -/
theorem MAP_table_spec :
    (∀ c, (MAP c).isSome = permittedChar c) ∧
    (∀ c v, MAP c = some v → v ≤ 9) ∧
    (∀ d : Nat, d ≤ 9 → MAP (Char.ofNat (48 + d)) = some d) ∧
    (MAP 'A' = some 1 ∧ MAP 'B' = some 2 ∧ MAP 'C' = some 3 ∧ MAP 'D' = some 4 ∧
     MAP 'E' = some 5 ∧ MAP 'F' = some 6 ∧ MAP 'G' = some 7 ∧ MAP 'H' = some 8 ∧
     MAP 'J' = some 1 ∧ MAP 'K' = some 2 ∧ MAP 'L' = some 3 ∧ MAP 'M' = some 4 ∧
     MAP 'N' = some 5 ∧ MAP 'P' = some 7 ∧ MAP 'R' = some 9 ∧ MAP 'S' = some 2 ∧
     MAP 'T' = some 3 ∧ MAP 'U' = some 4 ∧ MAP 'V' = some 5 ∧ MAP 'W' = some 6 ∧
     MAP 'X' = some 7 ∧ MAP 'Y' = some 8 ∧ MAP 'Z' = some 9) ∧
    (MAP 'I' = none ∧ MAP 'O' = none ∧ MAP 'Q' = none) :=
  ⟨MAP_isSome_eq, fun _ _ h => (MAP_lt h).2, by decide, by decide, by decide⟩

theorem MAP_table_spec_witness :
    (2 : Nat) ≤ 9 ∧ MAP (Char.ofNat (48 + 7)) = some 7 :=
  ⟨MAP_table_spec.2.1 'S' 2 (by decide), MAP_table_spec.2.2.1 7 (by decide)⟩

/-- Claim C4: validateVIN records INVALID_CHARACTERS exactly when the
normalized candidate fails the 17-characters-from-the-permitted-alphabet
rule, and this is independent of the length check: a wrong-length string
containing a forbidden character records both INVALID_LENGTH and
INVALID_CHARACTERS. -/
theorem invalid_characters_iff (x : Str) :
    (VinErrorCode.INVALID_CHARACTERS ∈ (validateVIN x).errors ↔
      VIN_REGEX (normalizeVIN x) = false) ∧
    ((normalizeVIN x).length ≠ 17 → (∃ c ∈ normalizeVIN x, permittedChar c = false) →
      VinErrorCode.INVALID_LENGTH ∈ (validateVIN x).errors ∧
      VinErrorCode.INVALID_CHARACTERS ∈ (validateVIN x).errors) := by
  have herr : (validateVIN x).errors = errorsOf (normalizeVIN x) := by
    rw [validateVIN_eq]
  rw [herr]
  constructor
  · exact mem_errorsOf_chars _
  · intro hlen hbad
    refine ⟨(mem_errorsOf_len _).mpr hlen, (mem_errorsOf_chars _).mpr ?_⟩
    rw [VIN_REGEX]
    simp only [VIN_LENGTH, Bool.and_eq_false_iff]
    left
    simpa using hlen

theorem invalid_characters_iff_witness :
    (normalizeVIN ("AB!".data)).length ≠ 17 ∧
    (∃ c ∈ normalizeVIN ("AB!".data), permittedChar c = false) ∧
    VinErrorCode.INVALID_LENGTH ∈ (validateVIN ("AB!".data)).errors ∧
    VinErrorCode.INVALID_CHARACTERS ∈ (validateVIN ("AB!".data)).errors :=
  ⟨by decide, ⟨'!', by decide, by decide⟩,
    (invalid_characters_iff ("AB!".data)).2 (by decide) ⟨'!', by decide, by decide⟩⟩

theorem regex_false_of_compute_err {v : Str} (hup : v.map Char.toUpper = v)
    (hlen : v.length = 17) (herr : ∃ e, computeCheckDigit v = Except.error e) :
    VIN_REGEX v = false := by
  obtain ⟨j, hj, hbad⟩ := (compute_err_iff v).mp herr
  rw [hup] at hbad
  have hjl : j < v.length := by omega
  rw [List.getElem?_eq_getElem hjl, Option.some_bind] at hbad
  have hperm : permittedChar (v[j]) = false := by
    have h2 := MAP_isSome_eq (v[j])
    rw [hbad] at h2
    exact h2.symm
  rw [VIN_REGEX, Bool.and_eq_false_iff]
  right
  exact List.all_eq_false.mpr ⟨v[j], List.getElem_mem hjl, by simp [hperm]⟩

/-- Claim C5: INVALID_CHECK_DIGIT is recorded exactly when the
normalized candidate has length 17, passes the charset rule, and its 9th
character differs from the computed check digit; when the length is not
17, or the calculator fails at length 17, the expected check digit stays
at the sentinel and no check-digit error is recorded. -/
theorem invalid_check_digit_iff (x : Str) :
    (VinErrorCode.INVALID_CHECK_DIGIT ∈ (validateVIN x).errors ↔
      ((normalizeVIN x).length = 17 ∧ (∀ c ∈ normalizeVIN x, permittedChar c = true) ∧
        ∃ d, computeCheckDigit (normalizeVIN x) = Except.ok d ∧
          ¬ (normalizeVIN x)[8]? = some d)) ∧
    ((normalizeVIN x).length ≠ 17 → (validateVIN x).expectedCheckDigit = naStr) ∧
    ((normalizeVIN x).length = 17 →
      (∃ e, computeCheckDigit (normalizeVIN x) = Except.error e) →
      (validateVIN x).expectedCheckDigit = naStr ∧
      ¬ VinErrorCode.INVALID_CHECK_DIGIT ∈ (validateVIN x).errors) := by
  have herr : (validateVIN x).errors = errorsOf (normalizeVIN x) := by
    rw [validateVIN_eq]
  have hexp : (validateVIN x).expectedCheckDigit = expectedOf (normalizeVIN x) := by
    rw [validateVIN_eq]
  refine ⟨?_, ?_, ?_⟩
  · rw [herr, mem_errorsOf_ckd]
    constructor
    · rintro ⟨hr, hne⟩
      obtain ⟨hl, hall⟩ := (VIN_REGEX_iff _).mp hr
      exact ⟨hl, hall, checkDigitChar (weightedSum (normalizeVIN x) % 11),
        compute_ok_of_perm hl (List.all_eq_true.mpr hall), hne⟩
    · rintro ⟨hl, hall, d, hok, hne⟩
      have hr := (VIN_REGEX_iff _).mpr ⟨hl, hall⟩
      have hcc := compute_ok_of_perm hl (List.all_eq_true.mpr hall)
      have hd : d = checkDigitChar (weightedSum (normalizeVIN x) % 11) :=
        Except.ok.inj (hok.symm.trans hcc)
      rw [hd] at hne
      exact ⟨hr, hne⟩
  · intro hlen
    rw [hexp, expectedOf, if_neg]
    intro hr
    exact hlen ((VIN_REGEX_iff _).mp hr).1
  · intro hlen hce
    have hr := regex_false_of_compute_err (normalizeVIN_map_toUpper x) hlen hce
    constructor
    · rw [hexp, expectedOf, if_neg]
      rw [hr]
      simp
    · rw [herr, mem_errorsOf_ckd]
      rintro ⟨hr2, _⟩
      rw [hr] at hr2
      exact Bool.noConfusion hr2

theorem invalid_check_digit_iff_witness :
    (normalizeVIN ("1HGCM82633A004Q52".data)).length = 17 ∧
    (∃ e, computeCheckDigit (normalizeVIN ("1HGCM82633A004Q52".data)) = Except.error e) ∧
    (validateVIN ("1HGCM82633A004Q52".data)).expectedCheckDigit = naStr ∧
    ¬ VinErrorCode.INVALID_CHECK_DIGIT ∈ (validateVIN ("1HGCM82633A004Q52".data)).errors :=
  ⟨by decide, ⟨invalidCharMsg ['Q'] 15, by decide⟩,
    (invalid_check_digit_iff ("1HGCM82633A004Q52".data)).2.2 (by decide)
      ⟨invalidCharMsg ['Q'] 15, by decide⟩⟩


theorem map_toUpper_idem (l : Str) :
    (l.map Char.toUpper).map Char.toUpper = l.map Char.toUpper := by
  rw [List.map_map]
  exact List.map_congr_left fun a _ => toUpper_idem a

theorem sumVIN_error_at {v : Str} : ∀ (j : Nat) (ws : List Nat) (i : Nat), j < ws.length →
    (∀ k, k < j → (Option.bind v[i + k]? MAP).isSome = true) →
    Option.bind v[i + j]? MAP = none →
    sumVIN v ws i = Except.error (invalidCharMsg (shownAt v (i + j)) (i + j + 1)) := by
  intro j
  induction j with
  | zero =>
    intro ws i hj _ hbad
    rw [Nat.add_zero] at hbad ⊢
    cases ws with
    | nil => simp at hj
    | cons w ws =>
      rw [sumVIN]
      cases hv : v[i]? with
      | none =>
        simp only [hv, shownAt]
      | some c =>
        rw [hv, Option.some_bind] at hbad
        simp only [hv, hbad, shownAt]
  | succ j ih =>
    intro ws i hj hgood hbad
    cases ws with
    | nil => simp at hj
    | cons w ws =>
      have h0 := hgood 0 (by omega)
      rw [Nat.add_zero] at h0
      cases hv : v[i]? with
      | none =>
        rw [hv] at h0
        simp at h0
      | some c =>
        rw [hv, Option.some_bind] at h0
        cases hm : MAP c with
        | none =>
          rw [hm] at h0
          simp at h0
        | some val =>
          have he2 : i + 1 + j = i + (j + 1) := by omega
          have hrec := ih ws (i + 1) (by simpa using hj)
            (fun k hk => by
              have hg := hgood (k + 1) (by omega)
              have he : i + (k + 1) = i + 1 + k := by omega
              rwa [he] at hg)
            (by rwa [he2])
          rw [sumVIN]
          simp only [hv, hm, hrec, Except.map, he2]

/-- Counterexample to claim C6: the character h has no entry in the
transliteration table, yet computeCheckDigit succeeds on a lowercase
17-character string containing it (the function uppercases its input
instead of failing on the raw character). -/
theorem computeCheckDigit_lowercase_counterexample :
    MAP 'h' = none ∧ ("1hgcm82633a004352".data)[1]? = some 'h' ∧
    computeCheckDigit ("1hgcm82633a004352".data) = Except.ok '3' := by
  refine ⟨by decide, by decide, by decide⟩

/-- Claim C6 as amended: computeCheckDigit uppercases its input (ASCII
case fold) rather than assuming it already uppercased, and it fails,
with an error identifying the offending character and its 1-based
position, exactly when one of the first 17 positions of the uppercased
input is missing or has no entry in the transliteration table. -/
theorem computeCheckDigit_uppercases (v : Str) :
    computeCheckDigit v = computeCheckDigit (v.map Char.toUpper) ∧
    ((∃ e, computeCheckDigit v = Except.error e) ↔
      ∃ j, j < 17 ∧ Option.bind (v.map Char.toUpper)[j]? MAP = none) ∧
    (∀ j, j < 17 →
      (∀ k, k < j → (Option.bind (v.map Char.toUpper)[k]? MAP).isSome = true) →
      Option.bind (v.map Char.toUpper)[j]? MAP = none →
      computeCheckDigit v =
        Except.error (invalidCharMsg (shownAt (v.map Char.toUpper) j) (j + 1))) := by
  refine ⟨?_, compute_err_iff v, ?_⟩
  · conv_rhs => rw [computeCheckDigit, map_toUpper_idem]
    rw [computeCheckDigit]
  · intro j hj hgood hbad
    have hz : (0 : Nat) + j = j := by omega
    have hs := sumVIN_error_at (v := v.map Char.toUpper) j WEIGHTS 0 hj
      (fun k hk => by
        have hz2 : (0 : Nat) + k = k := by omega
        rw [hz2]
        exact hgood k (by omega))
      (by rwa [hz])
    rw [hz] at hs
    rw [computeCheckDigit, hs]

theorem computeCheckDigit_uppercases_witness :
    computeCheckDigit ("1HGCM82633A00I352".data) =
      Except.error (invalidCharMsg (shownAt (("1HGCM82633A00I352".data).map Char.toUpper) 13)
        (13 + 1)) :=
  (computeCheckDigit_uppercases ("1HGCM82633A00I352".data)).2.2 13 (by decide)
    (by decide) (by decide)

/-- Claim C7: validateVIN is total over all strings; its failure modes
appear only as error codes of the closed three-code set inside the
returned result, validity is exactly emptiness of that error list, and
any character outside the permitted alphabet (including arbitrary
Unicode) falls through to INVALID_CHARACTERS rather than a crash. -/
theorem validateVIN_total (x : Str) :
    ((validateVIN x).isValid = true ↔ (validateVIN x).errors = []) ∧
    (∀ e ∈ (validateVIN x).errors,
      e = VinErrorCode.INVALID_LENGTH ∨ e = VinErrorCode.INVALID_CHARACTERS ∨
        e = VinErrorCode.INVALID_CHECK_DIGIT) ∧
    (∀ c ∈ normalizeVIN x, permittedChar c = false →
      VinErrorCode.INVALID_CHARACTERS ∈ (validateVIN x).errors) := by
  have herr : (validateVIN x).errors = errorsOf (normalizeVIN x) := by
    rw [validateVIN_eq]
  have hval : (validateVIN x).isValid = ((errorsOf (normalizeVIN x)).length == 0) := by
    rw [validateVIN_eq]
  refine ⟨?_, ?_, ?_⟩
  · rw [hval, herr, beq_iff_eq, List.length_eq_zero]
  · intro e _
    cases e
    · exact Or.inl rfl
    · exact Or.inr (Or.inl rfl)
    · exact Or.inr (Or.inr rfl)
  · intro c hc hperm
    rw [herr, mem_errorsOf_chars, VIN_REGEX, Bool.and_eq_false_iff]
    right
    exact List.all_eq_false.mpr ⟨c, hc, by simp [hperm]⟩

theorem validateVIN_total_witness :
    'Å' ∈ normalizeVIN ("ÅBCDEFGHJKLMNPRST".data) ∧ permittedChar 'Å' = false ∧
    VinErrorCode.INVALID_CHARACTERS ∈ (validateVIN ("ÅBCDEFGHJKLMNPRST".data)).errors :=
  ⟨by decide, by decide,
    (validateVIN_total ("ÅBCDEFGHJKLMNPRST".data)).2.2 'Å' (by decide) (by decide)⟩

/-- Claim C8: isValidVIN agrees with the isValid field of validateVIN;
assertVIN fails for exactly the inputs on which isValidVIN is false, on
success returns the normalized string, and on failure carries a message
listing every recorded error code and the expected check digit. -/
theorem assertVIN_spec (x : Str) :
    (isValidVIN x = (validateVIN x).isValid) ∧
    ((∃ v, assertVIN x = Except.ok v) ↔ isValidVIN x = true) ∧
    (isValidVIN x = true → assertVIN x = Except.ok (normalizeVIN x)) ∧
    (isValidVIN x = false →
      assertVIN x = Except.error (("Invalid VIN: ".data) ++
        (List.intercalate (", ".data) ((validateVIN x).errors.map errorCodeStr)) ++
        (" (expected check digit: ".data) ++ (validateVIN x).expectedCheckDigit ++
        (")".data))) := by
  have hvin : (validateVIN x).vin = normalizeVIN x := by
    rw [validateVIN_eq]
  refine ⟨rfl, ?_, ?_, ?_⟩
  · rw [assertVIN, isValidVIN]
    cases hv : (validateVIN x).isValid with
    | false => simp [hv]
    | true => simp [hv]
  · intro h
    rw [isValidVIN] at h
    rw [assertVIN]
    simp [h, hvin]
  · intro h
    rw [isValidVIN] at h
    rw [assertVIN]
    simp [h]

theorem assertVIN_spec_witness :
    isValidVIN ("1M8GDM9AXKP042788".data) = true ∧
    assertVIN ("1M8GDM9AXKP042788".data) =
      Except.ok (normalizeVIN ("1M8GDM9AXKP042788".data)) :=
  ⟨by decide, (assertVIN_spec ("1M8GDM9AXKP042788".data)).2.2.1 (by decide)⟩

theorem sumVIN_congr {u u2 : Str} (h : u.take 17 = u2.take 17) :
    ∀ (ws : List Nat) (i : Nat), i + ws.length ≤ 17 → sumVIN u ws i = sumVIN u2 ws i := by
  intro ws
  induction ws with
  | nil =>
    intro i _
    rw [sumVIN, sumVIN]
  | cons w ws ih =>
    intro i hle
    rw [List.length_cons] at hle
    have hi : i < 17 := by omega
    have hu : u[i]? = u2[i]? := by
      rw [← List.getElem?_take_of_lt (l := u) hi, h, List.getElem?_take_of_lt hi]
    rw [sumVIN, sumVIN, hu]
    cases hui : u2[i]? with
    | none => rfl
    | some c =>
      cases hm : MAP c with
      | none => simp only [hm]
      | some val => simp only [ih (i + 1) (by omega)]

/-- Claim C10: computeCheckDigit reads exactly the first 17 positions:
two strings agreeing on their first 17 characters produce the same
outcome, every string shorter than 17 characters makes it throw, and
when all present characters are transliterable the failure reports the
first missing position as untransliterable. -/
theorem computeCheckDigit_first17 :
    (∀ v w : Str, v.take 17 = w.take 17 → computeCheckDigit v = computeCheckDigit w) ∧
    (∀ v : Str, v.length < 17 → ∃ e, computeCheckDigit v = Except.error e) ∧
    (∀ v : Str, v.length < 17 →
      (∀ k, k < v.length → (Option.bind (v.map Char.toUpper)[k]? MAP).isSome = true) →
      computeCheckDigit v =
        Except.error (invalidCharMsg ("undefined".data) (v.length + 1))) := by
  refine ⟨?_, ?_, ?_⟩
  · intro v w h
    have hmap : (v.map Char.toUpper).take 17 = (w.map Char.toUpper).take 17 := by
      rw [← List.map_take, ← List.map_take, h]
    rw [computeCheckDigit, computeCheckDigit,
      sumVIN_congr hmap WEIGHTS 0 (by decide)]
  · intro v hlen
    apply (compute_err_iff v).mpr
    refine ⟨v.length, hlen, ?_⟩
    rw [List.getElem?_eq_none (by rw [List.length_map])]
    rfl
  · intro v hlen hgood
    have hz : (0 : Nat) + v.length = v.length := by omega
    have hs := sumVIN_error_at (v := v.map Char.toUpper) v.length WEIGHTS 0
      (by rw [WEIGHTS]; simpa using hlen)
      (fun k hk => by
        have hz2 : (0 : Nat) + k = k := by omega
        rw [hz2]
        exact hgood k hk)
      (by
        rw [hz, List.getElem?_eq_none (by rw [List.length_map])]
        rfl)
    rw [hz] at hs
    rw [computeCheckDigit, hs, shownAt,
      List.getElem?_eq_none (by rw [List.length_map])]

theorem computeCheckDigit_first17_witness :
    ("AB".data).length < 17 ∧
    (∃ e, computeCheckDigit ("AB".data) = Except.error e) ∧
    computeCheckDigit ("AB".data) =
      Except.error (invalidCharMsg ("undefined".data) (("AB".data).length + 1)) :=
  ⟨by decide, computeCheckDigit_first17.2.1 ("AB".data) (by decide),
    computeCheckDigit_first17.2.2 ("AB".data) (by decide) (by decide)⟩
